import Mathlib

/-!
Shallow embedding of the eno synthesis/reconciliation engine.

Source files embedded here:
  - internal/controllers/flowcontrol/synthesis.go
      (synthesisConcurrencyLimiter.Reconcile)
  - internal/controllers/reconciliation controller
      (Controller.Reconcile, Controller.reconcileResource, Controller.buildPatch,
       Controller.getCurrent, mungePatch)

Conventions of the embedding:
  - timestamps and durations are Nat (nanoseconds); `metav1.Time` pointers
    become `Option Nat`;
  - effectful calls (client gets, cache lookups, API writes) are modelled by
    threading their results through an explicit environment record, with the
    control flow of the Go source transcribed literally;
  - Kubernetes API errors are the three classes the source distinguishes:
    NotFound, the "empty namespace" string-matched error, and everything else.
-/

namespace Eno

/-! ## A small JSON model (map-like objects as association lists) -/

inductive Json where
  | null : Json
  | str : String → Json
  | num : Int → Json
  | bool : Bool → Json
  | obj : List (String × Json) → Json
  | arr : List Json → Json

/-- Lookup of a top-level key in a JSON object field list (Go map indexing). -/
def getField : List (String × Json) → String → Option Json
  | [], _ => none
  | (k, v) :: rest, key => if k = key then some v else getField rest key

/-- Go `delete(m, key)`: remove a key from a JSON object field list. -/
def removeField : List (String × Json) → String → List (String × Json)
  | [], _ => []
  | (k, v) :: rest, key => if k = key then removeField rest key else (k, v) :: removeField rest key

/-- Go map assignment `m[key] = v`: update in place, or add the key. -/
def setField : List (String × Json) → String → Json → List (String × Json)
  | [], key, v => [(key, v)]
  | (k, w) :: rest, key, v => if k = key then (key, v) :: rest else (k, w) :: setField rest key v

/-- `unstructured.SetNestedField(obj, v, parent, child)`: creates the parent map
if absent; silently does nothing when the parent exists but is not a map
(the source ignores the returned error). -/
def setNested (fields : List (String × Json)) (parent child : String) (v : Json) :
    List (String × Json) :=
  match getField fields parent with
  | none => setField fields parent (Json.obj [(child, v)])
  | some (Json.obj inner) => setField fields parent (Json.obj (setField inner child v))
  | some _ => fields

/-- `unstructured.RemoveNestedField(obj, parent, child)`: removes the child key
when the parent exists and is a map; otherwise does nothing. -/
def removeNested (fields : List (String × Json)) (parent child : String) :
    List (String × Json) :=
  match getField fields parent with
  | some (Json.obj inner) => setField fields parent (Json.obj (removeField inner child))
  | _ => fields

/-! ## Core data model (api/v1 types, fields used by the embedded controllers) -/

/-- One synthesis status slot (`apiv1.Synthesis`), restricted to the fields the
embedded controllers read: `UUID`, `Synthesized` and the `Failed` flag. -/
structure Synthesis where
  uuid : String
  synthesized : Option Nat
  failed : Bool
deriving DecidableEq, Repr

/-- `apiv1.Composition`, restricted to the fields the embedded controllers
read: the two synthesis slots and the object annotations. -/
structure Composition where
  currentSynthesis : Option Synthesis
  previousSynthesis : Option Synthesis
  annotations : List (String × String)
deriving DecidableEq, Repr

/-! ## Synthesis concurrency limiter (flowcontrol/synthesis.go) -/

/-- `ctrl.Result`: requeue flag plus optional requeue-after duration. -/
structure CtrlResult where
  requeue : Bool
  requeueAfter : Option Nat
deriving DecidableEq, Repr

/-- A composition is counted as active when its current synthesis exists, is
not yet synthesized, and has a non-empty UUID (synthesis.go line 57). -/
def isActive (c : Composition) : Bool :=
  match c.currentSynthesis with
  | none => false
  | some s => s.synthesized.isNone && !(s.uuid = "")

/-- A composition is pending when its current synthesis exists, is not yet
synthesized, and has an empty UUID (synthesis.go line 55). -/
def isPending (c : Composition) : Bool :=
  match c.currentSynthesis with
  | none => false
  | some s => s.synthesized.isNone && (s.uuid = "")

/-- Number of active syntheses in a composition list (the `active` counter). -/
def countActive (comps : List Composition) : Nat :=
  comps.countP isActive

/-- Indices (in listing order) of the pending compositions (the `pending`
slice built by the limiter's loop). -/
def pendingIndices (comps : List Composition) : List Nat :=
  (List.range comps.length).filter fun i =>
    match comps[i]? with
    | some c => isPending c
    | none => false

/-- One operation of an RFC 6902 JSON patch, restricted to the shapes the
limiter emits: `test` and `add` on a string-or-null value at a path. -/
inductive PatchOp where
  | test : String → Option String → PatchOp
  | add : String → Option String → PatchOp
deriving DecidableEq, Repr

/-- The patched path, `/status/currentSynthesis/uuid`. -/
def uuidPath : String := "/status/currentSynthesis/uuid"

/-- The dispatch patch the limiter marshals: test-for-null followed by add
(synthesis.go lines 78-82). -/
def dispatchPatch (fresh : String) : List PatchOp :=
  [PatchOp.test uuidPath none, PatchOp.add uuidPath (some fresh)]

/-- Serialized view of the UUID field: the Go field has `omitempty`, so an
empty UUID is absent from JSON and reads back as null. -/
def serializedUUID (s : Synthesis) : Option String :=
  if s.uuid = "" then none else some s.uuid

/-- Replace the UUID of the current synthesis slot. -/
def setUUID (c : Composition) (u : String) : Composition :=
  match c.currentSynthesis with
  | none => c
  | some s => { c with currentSynthesis := some { s with uuid := u } }

/-- Apply one patch operation to a composition, as the API server evaluates
the limiter's patch: `test` against `/status/currentSynthesis/uuid` compares
with the serialized (omitempty) value and fails when the parent slot is
absent; `add` writes the UUID and fails when the parent slot is absent. -/
def applyOp (c : Composition) (op : PatchOp) : Option Composition :=
  match op with
  | PatchOp.test p v =>
    if p = uuidPath then
      match c.currentSynthesis with
      | none => none
      | some s => if serializedUUID s = v then some c else none
    else none
  | PatchOp.add p v =>
    if p = uuidPath then
      match c.currentSynthesis, v with
      | some _, some u => some (setUUID c u)
      | _, _ => none
    else none

/-- Apply a JSON patch operation list left to right; any failing operation
fails the whole patch (the API server rejects it with a conflict-class
error). -/
def applyPatch (c : Composition) : List PatchOp → Option Composition
  | [] => some c
  | op :: rest =>
    match applyOp c op with
    | none => none
    | some c2 => applyPatch c2 rest

/-- Outcome of one limiter tick: the API server state afterwards, the
controller result, whether an error was returned, and the patch that was
issued (target index in the composition list plus its operations), if any. -/
structure FCOutcome where
  server : List Composition
  result : CtrlResult
  err : Bool
  patched : Option (Nat × List PatchOp)
deriving Repr

/-- The pending composition the tick selects: `pending[rand.Intn(len(pending))]`,
with `r` standing for the drawn random value. -/
def dispatchIndex (cached : List Composition) (r : Nat) : Nat :=
  (pendingIndices cached).getD (r % (pendingIndices cached).length) 0

/-- `synthesisConcurrencyLimiter.Reconcile` (synthesis.go lines 37-94).
`cached` is the composition list returned by `client.List` (an informer
cache, possibly stale); `server` is the authoritative API server state the
patch is evaluated against, index-aligned with `cached`. `r` stands for the
value drawn by `rand.Intn` and `fresh` for `uuid.NewString()`. -/
def fcReconcile (limit cooldown : Nat) (cached server : List Composition)
    (r : Nat) (fresh : String) : FCOutcome :=
  if limit ≤ countActive cached then
    ⟨server, ⟨false, none⟩, false, none⟩
  else if (pendingIndices cached).isEmpty then
    ⟨server, ⟨false, none⟩, false, none⟩
  else
    match server[dispatchIndex cached r]? with
    | none => ⟨server, ⟨false, none⟩, true, some (dispatchIndex cached r, dispatchPatch fresh)⟩
    | some sc =>
      match applyPatch sc (dispatchPatch fresh) with
      | none => ⟨server, ⟨false, none⟩, true, some (dispatchIndex cached r, dispatchPatch fresh)⟩
      | some sc2 =>
        ⟨server.set (dispatchIndex cached r) sc2, ⟨true, some cooldown⟩, false,
          some (dispatchIndex cached r, dispatchPatch fresh)⟩

/-! ## Resource reconciliation controller -/

/-- The three error classes the reconciliation controller distinguishes on
API calls: NotFound, the string-matched "empty namespace" error
(`isErrMissingNS`), and everything else. -/
inductive ApiErr where
  | notFound : ApiErr
  | missingNS : ApiErr
  | other : ApiErr
deriving DecidableEq, Repr

/-- Group/version/kind of a resource. -/
structure GVK where
  group : String
  version : String
  kind : String
deriving DecidableEq, Repr

/-- The `policy/v1 PodDisruptionBudget` GVK excluded from strategic merge. -/
def pdbGVK : GVK := ⟨"policy", "v1", "PodDisruptionBudget"⟩

/-- `apiv1.ResourceState`: per-resource status recorded in a ResourceSlice. -/
structure ResourceState where
  reconciled : Bool
  ready : Option Nat
  deleted : Bool
deriving DecidableEq, Repr

/-- A downstream object as read by the controller (`unstructured`), reduced
to the fields the source inspects plus its full JSON content. -/
structure Obj where
  resourceVersion : String
  deletionTimestamp : Option Nat
  json : Json

/-- `reconstitution.Resource`, restricted to the fields the embedded
controller reads. `patch` is the optional explicit JSON-patch form;
`manifest` is the result of `Parse()`; `finalized` the result of
`Finalize()` (each may fail, modelled with `Except`). `lastSeen` is the
cached last-observed downstream resource version. Modelled from the spec:
the accessors `HasBeenSeen`, `MatchesLastSeen` and `ObserveVersion` live in
the reconstitution package (not under src/); per the spec a cache entry
holds "a last-observed downstream resource version (string)", so
`HasBeenSeen` is `lastSeen ≠ ""`, `MatchesLastSeen rv` is `lastSeen = rv`,
and `ObserveVersion rv` replaces it. -/
structure Resource where
  gvk : GVK
  readinessGroup : Int
  deleted : Bool
  patch : Option Json
  needsToBePatched : Bool
  disableUpdates : Bool
  reconcileInterval : Option Nat
  manifest : Except Unit Json
  finalized : Except Unit Json
  lastSeen : String

/-- The closed variant of patch media types used by the controller. -/
inductive PatchKind where
  | json : PatchKind
  | merge : PatchKind
  | strategic : PatchKind
deriving DecidableEq, Repr

/-- A write the reconciler performs against the downstream API server. -/
inductive Action where
  | delete : Action
  | create : Json → Action
  | patch : PatchKind → Json → Action

/-- Result of `Controller.getCurrent`: the fetched object (nil on the hot
path and on errors), the `hasChanged` flag, the error, and two flags
recording which reads were performed. -/
structure GCOut where
  current : Option Obj
  hasChanged : Bool
  err : Option ApiErr
  usedHotPath : Bool
  didFullRead : Bool

/-- `Controller.getCurrent` (controller source lines 500-527). When the
resource has been seen before and is not marked Deleted, a metadata-only
read is tried first and an unchanged resource version returns early;
otherwise a full read is performed and the state reported as changed.
`metaRead` and `fullRead` are the results of the two API reads (the server
may change between them). -/
def getCurrent (r : Resource) (metaRead : Except ApiErr String)
    (fullRead : Except ApiErr Obj) : GCOut :=
  if !(r.lastSeen = "") && !r.deleted then
    match metaRead with
    | Except.error e => ⟨none, false, some e, false, false⟩
    | Except.ok rv =>
      if r.lastSeen = rv then ⟨none, false, none, true, false⟩
      else
        match fullRead with
        | Except.error e => ⟨none, true, some e, false, true⟩
        | Except.ok cur => ⟨some cur, true, none, false, true⟩
  else
    match fullRead with
    | Except.error e => ⟨none, true, some e, false, true⟩
    | Except.ok cur => ⟨some cur, true, none, false, true⟩

/-! ### mungePatch -/

/-- The field rewriting performed by `mungePatch` on the decoded patch map:
delete the top-level `status` key, then `SetResourceVersion rv` (which for a
non-empty rv writes `metadata.resourceVersion`, creating `metadata` when
absent, and for an empty rv removes it), then `SetCreationTimestamp` with
the zero time (which removes `metadata.creationTimestamp`). -/
def mungeFields (fields : List (String × Json)) (rv : String) :
    List (String × Json) :=
  let f1 := removeField fields "status"
  let f2 := if rv = "" then removeNested f1 "metadata" "resourceVersion"
            else setNested f1 "metadata" "resourceVersion" (Json.str rv)
  removeNested f2 "metadata" "creationTimestamp"

/-- `mungePatch` (controller source lines 529-550). A patch body that is not
a JSON object fails to unmarshal into `map[string]interface` and is a
terminal error. After rewriting, a map with at most one top-level key holds
nothing beyond the injected resource version and is returned as nil (empty
patch). -/
def mungePatch (patch : Json) (rv : String) : Except Unit (Option Json) :=
  match patch with
  | Json.obj fields =>
    let out := mungeFields fields rv
    if out.length ≤ 1 then Except.ok none else Except.ok (some (Json.obj out))
  | _ => Except.error ()

/-! ### buildPatch -/

/-- `Resource.Finalize` on an optional previous resource: a nil previous
state serializes to nothing and the three-way-merge libraries treat the
absent side as the empty object. -/
def finalize : Option Resource → Except Unit Json
  | none => Except.ok (Json.obj [])
  | some r => r.finalized

/-- The controller configuration plus the two three-way-merge primitives it
delegates to (`jsonmergepatch.CreateThreeWayJSONMergePatch` and
`strategicpatch.CreateThreeWayMergePatch`), which are third-party library
functions kept abstract: each maps (previous, next, current) JSON to a
patch body or fails. -/
structure Controller where
  readinessPollInterval : Nat
  mergeJSON : Json → Json → Json → Except Unit Json
  mergeStrategic : Json → Json → Json → Except Unit Json

/-- `Controller.buildPatch` (controller source lines 452-498). `discovery`
is the result of `c.discovery.Get` for the resource's GVK: an error, or a
Bool recording whether an OpenAPI model is available (the model's content
only steers control flow through its nil-ness). An explicit JSON-patch form
is emitted verbatim when `NeedsToBePatched` holds and is otherwise an empty
(nil) patch body; all other resources get a three-way merge, strategic
exactly when a model is available and the GVK is not policy/v1
PodDisruptionBudget. -/
def buildPatch (c : Controller) (discovery : Except Unit Bool)
    (prev : Option Resource) (next : Resource) (current : Obj) :
    Except Unit (Option Json × PatchKind) :=
  match next.patch with
  | some p =>
    if !next.needsToBePatched then Except.ok (none, PatchKind.json)
    else Except.ok (some p, PatchKind.json)
  | none =>
    match finalize prev with
    | Except.error _ => Except.error ()
    | Except.ok prevJS =>
      match next.finalized with
      | Except.error _ => Except.error ()
      | Except.ok nextJS =>
        match discovery with
        | Except.error _ => Except.error ()
        | Except.ok hasModel =>
          if !hasModel || next.gvk = pdbGVK then
            match c.mergeJSON prevJS nextJS current.json with
            | Except.error _ => Except.error ()
            | Except.ok p => Except.ok (some p, PatchKind.merge)
          else
            match c.mergeStrategic prevJS nextJS current.json with
            | Except.error _ => Except.error ()
            | Except.ok p => Except.ok (some p, PatchKind.strategic)

/-! ### reconcileResource -/

/-- Results of the three downstream write calls the reconciler may perform
(`none` means the call succeeded), plus the discovery cache lookup consumed
by `buildPatch`. -/
structure WriteEnv where
  deleteResult : Option ApiErr
  createResult : Option ApiErr
  patchResult : Option ApiErr
  discovery : Except Unit Bool

/-- Return value of `Controller.reconcileResource`: the `modified` flag,
whether an error was returned, and the downstream writes performed. -/
structure RROut where
  modified : Bool
  err : Bool
  actions : List Action

/-- `Controller.reconcileResource` (controller source lines 375-450).
Deletion first: nothing to do when the object is gone or already
terminating, nothing when the composition carries the orphan
deletion-strategy annotation, otherwise delete with NotFound ignored.
A JSON-patch-form resource with no current object is skipped. A missing
object is created from the parsed manifest. `DisableUpdates` skips. All
other cases build a patch, munge it unless it is a JSON patch, skip when it
came out empty, and apply it. -/
def reconcileResource (c : Controller) (w : WriteEnv) (comp : Composition)
    (prev : Option Resource) (r : Resource) (current : Option Obj) : RROut :=
  if r.deleted then
    match current with
    | none => ⟨false, false, []⟩
    | some cur =>
      if cur.deletionTimestamp.isSome then ⟨false, false, []⟩
      else if comp.annotations.lookup "eno.azure.io/deletion-strategy" = some "orphan" then
        ⟨false, false, []⟩
      else
        match w.deleteResult with
        | none => ⟨true, false, [Action.delete]⟩
        | some ApiErr.notFound => ⟨false, false, [Action.delete]⟩
        | some _ => ⟨false, true, [Action.delete]⟩
  else if r.patch.isSome && current.isNone then ⟨false, false, []⟩
  else
    match current with
    | none =>
      match r.manifest with
      | Except.error _ => ⟨false, true, []⟩
      | Except.ok objJS =>
        match w.createResult with
        | none => ⟨true, false, [Action.create objJS]⟩
        | some _ => ⟨false, true, [Action.create objJS]⟩
    | some cur =>
      if r.disableUpdates then ⟨false, false, []⟩
      else
        match buildPatch c w.discovery prev r cur with
        | Except.error _ => ⟨false, true, []⟩
        | Except.ok (p, ty) =>
          let munged : Except Unit (Option Json) :=
            if ty = PatchKind.json then Except.ok p
            else
              match p with
              | none => Except.error ()
              | some body => mungePatch body cur.resourceVersion
          match munged with
          | Except.error _ => ⟨false, true, []⟩
          | Except.ok none => ⟨false, false, []⟩
          | Except.ok (some body) =>
            match w.patchResult with
            | none => ⟨true, false, [Action.patch ty body]⟩
            | some _ => ⟨false, true, [Action.patch ty body]⟩

/-! ### Controller.Reconcile -/

/-- One second, in the nanosecond units of the embedding (`time.Second`). -/
def oneSecond : Nat := 1000000000

/-- Per-synthesis resource index handed to the readiness-group range query:
each entry is a resource's readiness group together with the outcome of
loading its recorded slice status (slice get, then `FindStatus`). -/
abbrev SynResources : Type := List (Int × Except Unit (Option ResourceState))

/-- Modelled from the spec: the desired-state cache operation
`RangeByReadinessGroup(synRef, group, RangeDesc)` lives in the
reconstitution package (not under src/); per the spec it "enumerates
resources in strictly-lower (or strictly-higher) groups" than the given
group, the descending direction being the strictly-lower ones. -/
def rangeByReadinessGroup (g : Int) (rs : SynResources) :
    List (Except Unit (Option ResourceState)) :=
  (rs.filter fun p => p.1 < g).map Prod.snd

/-- Outcome of the readiness-group dependency loop (controller source lines
326-338): every dependency ready, a not-ready dependency reached, or a
slice read failed before any not-ready dependency was found. -/
inductive DepCheck where
  | passed : DepCheck
  | halted : DepCheck
  | errored : DepCheck
deriving DecidableEq, Repr

/-- The readiness-group dependency loop itself: walk the enumerated
dependencies in order, fail on a slice read error, halt on the first
dependency with no recorded status or no Ready timestamp. -/
def checkDeps : List (Except Unit (Option ResourceState)) → DepCheck
  | [] => DepCheck.passed
  | d :: rest =>
    match d with
    | Except.error _ => DepCheck.errored
    | Except.ok none => DepCheck.halted
    | Except.ok (some st) =>
      if st.ready.isNone then DepCheck.halted else checkDeps rest

/-- Discretization of `wait.Jitter(d, 0.1)`, which returns `d` plus a random
fraction of up to ten percent of `d`: the random draw `rnd` is reduced so
the additive part ranges over `[0, d / 10]`. -/
def jitter (d rnd : Nat) : Nat := d + rnd % (d / 10 + 1)

/-- Environment of one `Controller.Reconcile` call: results of every
external interaction, in source order. -/
structure Env where
  compGet : Except ApiErr Composition
  cacheHit : Option Resource
  prevHit : Option Resource
  definingCRD : Option (Except Unit (Option ResourceState))
  now : Nat
  metaRead : Except ApiErr String
  fullRead : Except ApiErr Obj
  sliceGet : Except Unit (Option ResourceState)
  readinessEval : Option Nat
  synthesisResources : SynResources
  write : WriteEnv
  randReadiness : Nat
  randInterval : Nat

/-- The previous-synthesis desired state used for three-way merges: looked
up only when the composition has a previous synthesis slot (controller
source lines 253-258). -/
def prevResource (comp : Composition) (env : Env) : Option Resource :=
  if comp.previousSynthesis.isSome then env.prevHit else none

/-- The getCurrent error guard (controller source line 300):
`client.IgnoreNotFound(err) != nil && !isErrMissingNS(err)`. -/
def gcFatal : Option ApiErr → Bool
  | some ApiErr.other => true
  | _ => false

/-- Outcome of one `Controller.Reconcile` call: the controller result,
whether an error was returned, the downstream writes performed, the
`(deleted, ready)` pair handed to the status write buffer (if reached), the
resource's cached last-observed resource version after the call, and the
`modified` flag. -/
structure Outcome where
  result : CtrlResult
  err : Bool
  actions : List Action
  statusWrite : Option (Bool × Option Nat)
  finalLastSeen : String
  modified : Bool

/-- The readiness evaluation (controller source lines 304-322): when the
slice already records a Ready time it is reused, otherwise the configured
checks are evaluated (their result injected as `evalRes`). -/
def readyOf (st : Option ResourceState) (evalRes : Option Nat) : Option Nat :=
  match st with
  | some s =>
    match s.ready with
    | some t => some t
    | none => evalRes
  | none => evalRes

/-- The readiness-group gate's guard (controller source line 325):
`(status == nil || !status.Reconciled) && !resource.Deleted()`. -/
def gateActive (st : Option ResourceState) (r : Resource) : Bool :=
  (match st with | none => true | some s => !s.reconciled) && !r.deleted

/-- The CRD gate (controller source lines 276-296): when a CRD in the same
synthesis defines this resource's kind, stop unless its recorded status is
Ready, and defer until it has been Ready for a full second. `some o` means
the gate ends the tick with outcome `o`; `none` means it passes. `ls` is
the resource's cached resource version, unchanged on all gate exits. -/
def crdGate (env : Env) (ls : String) : Option Outcome :=
  match env.definingCRD with
  | none => none
  | some (Except.error _) => some ⟨⟨false, none⟩, true, [], none, ls, false⟩
  | some (Except.ok none) => some ⟨⟨false, none⟩, false, [], none, ls, false⟩
  | some (Except.ok (some st)) =>
    match st.ready with
    | none => some ⟨⟨false, none⟩, false, [], none, ls, false⟩
    | some t =>
      if 0 < oneSecond - (env.now - t) then
        some ⟨⟨false, some (oneSecond - (env.now - t))⟩, false, [], none, ls, false⟩
      else none

/-- The tail of `Controller.Reconcile` (controller source lines 341-372),
reached after every gate has passed: when the current state has changed,
first invalidate the cached resource version, then reconcile; propagate a
reconcile error; requeue immediately on modification; otherwise re-observe
the current resource version, hand the status write buffer the
`(deleted, ready)` state, and compute the final requeue. -/
def finishReconcile (c : Controller) (env : Env) (comp : Composition) (r : Resource)
    (gc : GCOut) (ready : Option Nat) : Outcome :=
  let step : Bool × Bool × List Action × String :=
    if gc.hasChanged then
      let rr := reconcileResource c env.write comp (prevResource comp env) r gc.current
      (rr.modified, rr.err, rr.actions, "")
    else (false, false, [], r.lastSeen)
  let (modified, rerr, actions, ls1) := step
  if rerr then ⟨⟨false, none⟩, true, actions, none, ls1, modified⟩
  else if modified then ⟨⟨true, none⟩, false, actions, none, ls1, true⟩
  else
    let ls2 :=
      match gc.current with
      | some cur =>
        if !(cur.resourceVersion = "") then cur.resourceVersion else ls1
      | none => ls1
    let deleted :=
      match gc.current with
      | none => true
      | some cur => cur.deletionTimestamp.isSome
    let sw := some (deleted, ready)
    if ready.isNone then
      ⟨⟨false, some (jitter c.readinessPollInterval env.randReadiness)⟩,
        false, actions, sw, ls2, false⟩
    else
      match r.reconcileInterval with
      | some iv =>
        if !r.deleted then
          ⟨⟨false, some (jitter iv env.randInterval)⟩, false, actions, sw, ls2, false⟩
        else ⟨⟨false, none⟩, false, actions, sw, ls2, false⟩
      | none => ⟨⟨false, none⟩, false, actions, sw, ls2, false⟩

/-- The body of `Controller.Reconcile` once the composition is loaded and
the desired state resolved from the cache (controller source lines
272-372): CRD gate, current-state fetch with its error guard, slice status
load, readiness evaluation, readiness-group gate, then the reconcile tail. -/
def reconcileResolved (c : Controller) (env : Env) (comp : Composition) (r : Resource) :
    Outcome :=
  match crdGate env r.lastSeen with
  | some o => o
  | none =>
    let gc := getCurrent r env.metaRead env.fullRead
    if gcFatal gc.err then ⟨⟨false, none⟩, true, [], none, r.lastSeen, false⟩
    else
      match env.sliceGet with
      | Except.error _ => ⟨⟨false, none⟩, true, [], none, r.lastSeen, false⟩
      | Except.ok st =>
        if gateActive st r then
          match checkDeps (rangeByReadinessGroup r.readinessGroup env.synthesisResources) with
          | DepCheck.errored => ⟨⟨false, none⟩, true, [], none, r.lastSeen, false⟩
          | DepCheck.halted => ⟨⟨false, none⟩, false, [], none, r.lastSeen, false⟩
          | DepCheck.passed => finishReconcile c env comp r gc (readyOf st env.readinessEval)
        else finishReconcile c env comp r gc (readyOf st env.readinessEval)

/-- `Controller.Reconcile` (controller source lines 224-373): composition
load with NotFound ignored, the two drop conditions (no current synthesis
or a failed one, desired state missing from the cache), then the resolved
body. -/
def Reconcile (c : Controller) (env : Env) : Outcome :=
  let ls0 := match env.cacheHit with | some r => r.lastSeen | none => ""
  match env.compGet with
  | Except.error ApiErr.notFound => ⟨⟨false, none⟩, false, [], none, ls0, false⟩
  | Except.error _ => ⟨⟨false, none⟩, true, [], none, ls0, false⟩
  | Except.ok comp =>
    match comp.currentSynthesis with
    | none => ⟨⟨false, none⟩, false, [], none, ls0, false⟩
    | some syn =>
      if syn.failed then ⟨⟨false, none⟩, false, [], none, ls0, false⟩
      else
        match env.cacheHit with
        | none => ⟨⟨false, none⟩, false, [], none, ls0, false⟩
        | some r => reconcileResolved c env comp r

/-! ## Helper lemmas -/

/-- Counting lemma: replacing a non-matching list element by a matching one
increases the count by exactly one. -/
theorem countP_set_add_one {α : Type} (p : α → Bool) :
    ∀ (l : List α) (i : Nat) (a b : α), l[i]? = some a → p a = false → p b = true →
      (l.set i b).countP p = l.countP p + 1 := by
  intro l
  induction l with
  | nil => intro i a b hget _ _; simp at hget
  | cons x t ih =>
    intro i a b hget hpa hpb
    cases i with
    | zero =>
      simp at hget
      subst hget
      simp [List.countP_cons, hpa, hpb]
    | succ j =>
      rw [List.getElem?_cons_succ] at hget
      have h2 := ih j a b hget hpa hpb
      cases hpx : p x <;> simp [List.countP_cons, h2, hpx]

/-- An in-bounds `getD` returns a member of the list. -/
theorem getD_mem_of_lt {l : List Nat} {n : Nat} (h : n < l.length) : l.getD n 0 ∈ l := by
  rw [List.getD_eq_getElem?_getD, List.getElem?_eq_getElem h]
  exact List.getElem_mem h

/-- Membership in `pendingIndices`: exactly the in-range indices whose
composition is pending. -/
theorem mem_pendingIndices {comps : List Composition} {i : Nat} :
    i ∈ pendingIndices comps ↔ ∃ c, comps[i]? = some c ∧ isPending c = true := by
  unfold pendingIndices
  rw [List.mem_filter, List.mem_range]
  constructor
  · rintro ⟨_, hpred⟩
    cases h : comps[i]? with
    | none => rw [h] at hpred; simp at hpred
    | some c =>
      refine ⟨c, rfl, ?_⟩
      rw [h] at hpred
      exact hpred
  · rintro ⟨c, h, hp⟩
    have hlt : i < comps.length := by
      by_contra hge
      rw [List.getElem?_eq_none (by omega)] at h
      exact Option.noConfusion h
    refine ⟨hlt, ?_⟩
    rw [h]
    exact hp

/-- A pending composition decomposes into a slot with empty UUID and no
synthesized timestamp. -/
theorem isPending_iff {c : Composition} :
    isPending c = true ↔
      ∃ s, c.currentSynthesis = some s ∧ s.synthesized = none ∧ s.uuid = "" := by
  unfold isPending
  cases hcs : c.currentSynthesis with
  | none => simp
  | some s =>
    cases hsyn : s.synthesized with
    | none => simp [hsyn]
    | some t => simp [hsyn]

/-- A pending composition is not active. -/
theorem isActive_of_isPending {c : Composition} (h : isPending c = true) :
    isActive c = false := by
  obtain ⟨s, hcs, hsyn, huuid⟩ := isPending_iff.mp h
  simp [isActive, hcs, huuid]

/-- The limiter's dispatch patch succeeds exactly on a composition whose
current synthesis slot exists with an empty (serialized-as-null) UUID, and
then writes the fresh UUID into that slot. -/
theorem applyPatch_dispatch {c c2 : Composition} {fresh : String} :
    applyPatch c (dispatchPatch fresh) = some c2 ↔
      ∃ s, c.currentSynthesis = some s ∧ s.uuid = "" ∧ c2 = setUUID c fresh := by
  cases hcs : c.currentSynthesis with
  | none => simp [dispatchPatch, applyPatch, applyOp, uuidPath, hcs]
  | some s =>
    by_cases huuid : s.uuid = ""
    · have happ : applyPatch c (dispatchPatch fresh) = some (setUUID c fresh) := by
        simp [dispatchPatch, applyPatch, applyOp, uuidPath, serializedUUID, hcs, huuid]
      rw [happ]
      constructor
      · intro h
        exact ⟨s, rfl, huuid, (Option.some.inj h).symm⟩
      · rintro ⟨s2, hs2, _, hc2⟩
        rw [hc2]
    · have happ : applyPatch c (dispatchPatch fresh) = none := by
        simp [dispatchPatch, applyPatch, applyOp, uuidPath, serializedUUID, hcs, huuid]
      rw [happ]
      constructor
      · intro h
        exact Option.noConfusion h
      · rintro ⟨s2, hs2, hu, _⟩
        have hs : s = s2 := Option.some.inj hs2
        exact absurd (by rw [hs]; exact hu) huuid

/-! ## Claims -/

/-- C1: on each tick of the synthesis concurrency limiter, a composition
with no current synthesis or an already-synthesized one is neither pending
nor active, an unsynthesized slot with empty UUID is pending, one with a
UUID is active; when the active count has reached the limit the tick issues
no dispatch patch and leaves the state unchanged; and one tick preserves
the invariant that the number of active syntheses (UUID non-empty,
Synthesized nil) is at most the concurrency limit. -/
theorem c1_concurrency_cap (limit cooldown : Nat) (comps : List Composition)
    (r : Nat) (fresh : String) :
    (∀ c : Composition,
      (c.currentSynthesis = none → isPending c = false ∧ isActive c = false) ∧
      (∀ s, c.currentSynthesis = some s → s.synthesized ≠ none →
        isPending c = false ∧ isActive c = false) ∧
      (∀ s, c.currentSynthesis = some s → s.synthesized = none →
        ((isPending c = true ↔ s.uuid = "") ∧ (isActive c = true ↔ s.uuid ≠ "")))) ∧
    (limit ≤ countActive comps →
      (fcReconcile limit cooldown comps comps r fresh).patched = none ∧
      (fcReconcile limit cooldown comps comps r fresh).server = comps) ∧
    (fresh ≠ "" → countActive comps ≤ limit →
      countActive (fcReconcile limit cooldown comps comps r fresh).server ≤ limit) := by
  refine ⟨?_, ?_, ?_⟩
  · intro c
    refine ⟨?_, ?_, ?_⟩
    · intro hcs; simp [isPending, isActive, hcs]
    · intro s hcs hsyn
      cases ht : s.synthesized with
      | none => exact absurd ht hsyn
      | some t => simp [isPending, isActive, hcs, ht]
    · intro s hcs hsyn
      simp [isPending, isActive, hcs, hsyn]
  · intro hlim
    simp [fcReconcile, hlim]
  · intro hfresh hcap
    by_cases hlim : limit ≤ countActive comps
    · simpa [fcReconcile, hlim] using hcap
    · by_cases hpend : (pendingIndices comps).isEmpty
      · simp [fcReconcile, hlim, hpend]
        exact hcap
      · have hne : pendingIndices comps ≠ [] := by
          intro h; rw [h] at hpend; simp at hpend
        have hlen : 0 < (pendingIndices comps).length := List.length_pos.mpr hne
        have hmem : dispatchIndex comps r ∈ pendingIndices comps :=
          getD_mem_of_lt (Nat.mod_lt _ hlen)
        obtain ⟨c, hget, hpendc⟩ := mem_pendingIndices.mp hmem
        obtain ⟨s, hcs, hsyn, huuid⟩ := isPending_iff.mp hpendc
        have happ : applyPatch c (dispatchPatch fresh) = some (setUUID c fresh) :=
          applyPatch_dispatch.mpr ⟨s, hcs, huuid, rfl⟩
        have hnew : isActive (setUUID c fresh) = true := by
          simp [setUUID, hcs, isActive, hsyn, hfresh]
        have hold : isActive c = false := isActive_of_isPending hpendc
        have hcount : countActive (comps.set (dispatchIndex comps r) (setUUID c fresh)) =
            countActive comps + 1 :=
          countP_set_add_one isActive comps _ c (setUUID c fresh) hget hold hnew
        have hout : fcReconcile limit cooldown comps comps r fresh =
            ⟨comps.set (dispatchIndex comps r) (setUUID c fresh), ⟨true, some cooldown⟩,
              false, some (dispatchIndex comps r, dispatchPatch fresh)⟩ := by
          unfold fcReconcile
          rw [if_neg hlim, if_neg hpend, hget]
          simp [happ]
        rw [hout]
        show countActive (comps.set (dispatchIndex comps r) (setUUID c fresh)) ≤ limit
        rw [hcount]
        omega

/-- C1 witness: a concrete two-composition state at the cap, where the tick
preserves the invariant. -/
theorem c1_concurrency_cap_witness :
    countActive [⟨some ⟨"a1", none, false⟩, none, []⟩, ⟨some ⟨"", none, false⟩, none, []⟩] ≤ 1 ∧
    countActive (fcReconcile 1 5
      [⟨some ⟨"a1", none, false⟩, none, []⟩, ⟨some ⟨"", none, false⟩, none, []⟩]
      [⟨some ⟨"a1", none, false⟩, none, []⟩, ⟨some ⟨"", none, false⟩, none, []⟩]
      0 "u1").server ≤ 1 :=
  ⟨by decide,
    (c1_concurrency_cap 1 5
      [⟨some ⟨"a1", none, false⟩, none, []⟩, ⟨some ⟨"", none, false⟩, none, []⟩]
      0 "u1").2.2 (by decide) (by decide)⟩

/-- C3 counterexample: the claim says that on conflict of the dispatch
patch "a requeue is scheduled after cooldown". Concretely, with cooldown 5
and a composition that is pending in the limiter's cached listing but whose
UUID was concurrently set on the server, the patch is issued and conflicts,
and the tick ends returning an error with an empty result: no requeue after
the cooldown is scheduled. -/
theorem c3_conflict_counterexample :
    (fcReconcile 1 5 [⟨some ⟨"", none, false⟩, none, []⟩]
      [⟨some ⟨"x", none, false⟩, none, []⟩] 0 "u1").patched ≠ none ∧
    (fcReconcile 1 5 [⟨some ⟨"", none, false⟩, none, []⟩]
      [⟨some ⟨"x", none, false⟩, none, []⟩] 0 "u1").err = true ∧
    (fcReconcile 1 5 [⟨some ⟨"", none, false⟩, none, []⟩]
      [⟨some ⟨"x", none, false⟩, none, []⟩] 0 "u1").result.requeueAfter = none := by
  refine ⟨?_, rfl, rfl⟩
  decide

/-- C3 (amended): on a tick with active strictly below the limit and at
least one pending composition, exactly one patch is issued, targeting the
randomly selected pending composition (every pending composition is
selectable by some random draw), consisting of a test-for-null operation
followed by an add operation on the UUID path; when the patch applies it
sets the UUID from empty to the fresh value and the tick succeeds with a
requeue after cooldown; when it conflicts the tick ends returning an error
and an empty result (the requeue then comes from the manager's backoff,
not from the cooldown). -/
theorem c3_dispatch_amended (limit cooldown : Nat) (cached server : List Composition)
    (r : Nat) (fresh : String)
    (hact : countActive cached < limit) (hpend : pendingIndices cached ≠ []) :
    (fcReconcile limit cooldown cached server r fresh).patched =
      some (dispatchIndex cached r, dispatchPatch fresh) ∧
    dispatchPatch fresh =
      [PatchOp.test uuidPath none, PatchOp.add uuidPath (some fresh)] ∧
    dispatchIndex cached r ∈ pendingIndices cached ∧
    (∀ j ∈ pendingIndices cached, ∃ r2, dispatchIndex cached r2 = j) ∧
    (∀ sc sc2, server[dispatchIndex cached r]? = some sc →
      applyPatch sc (dispatchPatch fresh) = some sc2 →
      (fcReconcile limit cooldown cached server r fresh).err = false ∧
      (fcReconcile limit cooldown cached server r fresh).result = ⟨true, some cooldown⟩ ∧
      (fcReconcile limit cooldown cached server r fresh).server =
        server.set (dispatchIndex cached r) sc2 ∧
      ∃ s, sc.currentSynthesis = some s ∧ s.uuid = "" ∧ sc2 = setUUID sc fresh) ∧
    (∀ sc, server[dispatchIndex cached r]? = some sc →
      applyPatch sc (dispatchPatch fresh) = none →
      (fcReconcile limit cooldown cached server r fresh).err = true ∧
      (fcReconcile limit cooldown cached server r fresh).result = ⟨false, none⟩ ∧
      (fcReconcile limit cooldown cached server r fresh).server = server) := by
  have hlim : ¬ limit ≤ countActive cached := not_le.mpr hact
  have hpendB : ¬ ((pendingIndices cached).isEmpty = true) := by
    cases hpl : pendingIndices cached with
    | nil => exact absurd hpl hpend
    | cons a t => simp
  have hlen : 0 < (pendingIndices cached).length := List.length_pos.mpr hpend
  refine ⟨?_, rfl, ?_, ?_, ?_, ?_⟩
  · cases hsc : server[dispatchIndex cached r]? with
    | none =>
      unfold fcReconcile
      rw [if_neg hlim, if_neg hpendB, hsc]
    | some sc =>
      cases happ : applyPatch sc (dispatchPatch fresh) with
      | none =>
        unfold fcReconcile
        rw [if_neg hlim, if_neg hpendB, hsc]
        simp only [happ]
      | some sc2 =>
        unfold fcReconcile
        rw [if_neg hlim, if_neg hpendB, hsc]
        simp only [happ]
  · exact getD_mem_of_lt (Nat.mod_lt _ hlen)
  · intro j hj
    obtain ⟨k, hk, hkj⟩ := List.mem_iff_getElem.mp hj
    refine ⟨k, ?_⟩
    unfold dispatchIndex
    rw [Nat.mod_eq_of_lt hk, List.getD_eq_getElem?_getD, List.getElem?_eq_getElem hk]
    simpa using hkj
  · intro sc sc2 hsc happ
    have hout : fcReconcile limit cooldown cached server r fresh =
        ⟨server.set (dispatchIndex cached r) sc2, ⟨true, some cooldown⟩, false,
          some (dispatchIndex cached r, dispatchPatch fresh)⟩ := by
      unfold fcReconcile
      rw [if_neg hlim, if_neg hpendB, hsc]
      simp [happ]
    obtain ⟨s, hcs, hu, hsc2⟩ := applyPatch_dispatch.mp happ
    exact ⟨by rw [hout], by rw [hout], by rw [hout], s, hcs, hu, hsc2⟩
  · intro sc hsc happ
    have hout : fcReconcile limit cooldown cached server r fresh =
        ⟨server, ⟨false, none⟩, true, some (dispatchIndex cached r, dispatchPatch fresh)⟩ := by
      unfold fcReconcile
      rw [if_neg hlim, if_neg hpendB, hsc]
      simp [happ]
    exact ⟨by rw [hout], by rw [hout], by rw [hout]⟩

/-- C3 witness: a concrete successful dispatch, requeued after the cooldown
of 7. -/
theorem c3_dispatch_amended_witness :
    (fcReconcile 1 7 [⟨some ⟨"", none, false⟩, none, []⟩]
      [⟨some ⟨"", none, false⟩, none, []⟩] 0 "u9").err = false ∧
    (fcReconcile 1 7 [⟨some ⟨"", none, false⟩, none, []⟩]
      [⟨some ⟨"", none, false⟩, none, []⟩] 0 "u9").result = ⟨true, some 7⟩ := by
  have h := (c3_dispatch_amended 1 7 [⟨some ⟨"", none, false⟩, none, []⟩]
    [⟨some ⟨"", none, false⟩, none, []⟩] 0 "u9" (by decide) (by decide)).2.2.2.2.1
    ⟨some ⟨"", none, false⟩, none, []⟩
    ⟨some ⟨"u9", none, false⟩, none, []⟩ (by decide) (by decide)
  exact ⟨h.1, h.2.1⟩

/-- C10: getCurrent never uses the metadata-only hot path for a resource
marked Deleted: a full read is always performed and the state reported as
changed, whatever the downstream resource version (in particular when it
equals the last observed one). -/
theorem c10_no_hot_path_for_deleted (r : Resource) (m : Except ApiErr String)
    (f : Except ApiErr Obj) (hdel : r.deleted = true) :
    (getCurrent r m f).usedHotPath = false ∧ (getCurrent r m f).didFullRead = true ∧
    (getCurrent r m f).hasChanged = true := by
  cases f with
  | error e => simp [getCurrent, hdel]
  | ok cur => simp [getCurrent, hdel]

/-- C10 witness: a deleted resource whose last-seen version "5" equals the
downstream version "5"; the hot path is still skipped and the state
reported as changed. -/
theorem c10_no_hot_path_for_deleted_witness :
    (getCurrent
      ⟨⟨"", "v1", "ConfigMap"⟩, 0, true, none, false, false, none,
        Except.ok (Json.obj []), Except.ok (Json.obj []), "5"⟩
      (Except.ok "5") (Except.ok ⟨"5", none, Json.obj []⟩)).usedHotPath = false ∧
    (getCurrent
      ⟨⟨"", "v1", "ConfigMap"⟩, 0, true, none, false, false, none,
        Except.ok (Json.obj []), Except.ok (Json.obj []), "5"⟩
      (Except.ok "5") (Except.ok ⟨"5", none, Json.obj []⟩)).hasChanged = true := by
  have h := c10_no_hot_path_for_deleted
    ⟨⟨"", "v1", "ConfigMap"⟩, 0, true, none, false, false, none,
      Except.ok (Json.obj []), Except.ok (Json.obj []), "5"⟩
    (Except.ok "5") (Except.ok ⟨"5", none, Json.obj []⟩) rfl
  exact ⟨h.1, h.2.2⟩

/-- C7: for a resource marked Deleted whose current object exists without a
deletion timestamp, the reconciler does nothing under the orphan
deletion-strategy annotation; otherwise it issues exactly one delete, and a
NotFound result from that delete is treated as success (no error, not
modified), while a successful delete reports modification without error. -/
theorem c7_delete_semantics (c : Controller) (w : WriteEnv) (comp : Composition)
    (prev : Option Resource) (r : Resource) (cur : Obj)
    (hdel : r.deleted = true) (hts : cur.deletionTimestamp = none) :
    (comp.annotations.lookup "eno.azure.io/deletion-strategy" = some "orphan" →
      reconcileResource c w comp prev r (some cur) = ⟨false, false, []⟩) ∧
    (comp.annotations.lookup "eno.azure.io/deletion-strategy" ≠ some "orphan" →
      (reconcileResource c w comp prev r (some cur)).actions = [Action.delete] ∧
      (w.deleteResult = some ApiErr.notFound →
        (reconcileResource c w comp prev r (some cur)).err = false ∧
        (reconcileResource c w comp prev r (some cur)).modified = false) ∧
      (w.deleteResult = none →
        (reconcileResource c w comp prev r (some cur)).err = false ∧
        (reconcileResource c w comp prev r (some cur)).modified = true)) := by
  constructor
  · intro horph
    simp [reconcileResource, hdel, hts, horph]
  · intro horph
    cases hdr : w.deleteResult with
    | none =>
      refine ⟨?_, ?_, ?_⟩
      · simp [reconcileResource, hdel, hts, horph, hdr]
      · intro h; exact Option.noConfusion h
      · intro _; simp [reconcileResource, hdel, hts, horph, hdr]
    | some e =>
      cases e with
      | notFound =>
        refine ⟨?_, ?_, ?_⟩
        · simp [reconcileResource, hdel, hts, horph, hdr]
        · intro _; simp [reconcileResource, hdel, hts, horph, hdr]
        · intro h; exact Option.noConfusion h
      | missingNS =>
        refine ⟨?_, ?_, ?_⟩
        · simp [reconcileResource, hdel, hts, horph, hdr]
        · intro h
          exact ApiErr.noConfusion (Option.some.inj h)
        · intro h; exact Option.noConfusion h
      | other =>
        refine ⟨?_, ?_, ?_⟩
        · simp [reconcileResource, hdel, hts, horph, hdr]
        · intro h
          exact ApiErr.noConfusion (Option.some.inj h)
        · intro h; exact Option.noConfusion h

/-- C7 witness: a deleted resource with an existing current object, no
orphan annotation, and a NotFound delete result: one delete issued, no
error. -/
theorem c7_delete_semantics_witness :
    (reconcileResource ⟨3, fun _ _ _ => Except.ok (Json.obj []),
        fun _ _ _ => Except.ok (Json.obj [])⟩
      ⟨some ApiErr.notFound, none, none, Except.ok false⟩
      ⟨some ⟨"u", none, false⟩, none, []⟩ none
      ⟨⟨"", "v1", "ConfigMap"⟩, 0, true, none, false, false, none,
        Except.ok (Json.obj []), Except.ok (Json.obj []), ""⟩
      (some ⟨"9", none, Json.obj []⟩)).actions = [Action.delete] ∧
    (reconcileResource ⟨3, fun _ _ _ => Except.ok (Json.obj []),
        fun _ _ _ => Except.ok (Json.obj [])⟩
      ⟨some ApiErr.notFound, none, none, Except.ok false⟩
      ⟨some ⟨"u", none, false⟩, none, []⟩ none
      ⟨⟨"", "v1", "ConfigMap"⟩, 0, true, none, false, false, none,
        Except.ok (Json.obj []), Except.ok (Json.obj []), ""⟩
      (some ⟨"9", none, Json.obj []⟩)).err = false := by
  have h := (c7_delete_semantics ⟨3, fun _ _ _ => Except.ok (Json.obj []),
      fun _ _ _ => Except.ok (Json.obj [])⟩
    ⟨some ApiErr.notFound, none, none, Except.ok false⟩
    ⟨some ⟨"u", none, false⟩, none, []⟩ none
    ⟨⟨"", "v1", "ConfigMap"⟩, 0, true, none, false, false, none,
      Except.ok (Json.obj []), Except.ok (Json.obj []), ""⟩
    ⟨"9", none, Json.obj []⟩ rfl rfl).2 (by simp [List.lookup])
  exact ⟨h.1, (h.2.1 rfl).1⟩

/-- C6: a resource whose desired form is an explicit JSON patch is never
created: when the current downstream object does not exist the reconciler
performs no write at all and reports no modification and no error, and
whatever the current state, no create action is ever emitted for it. -/
theorem c6_json_patch_never_created (c : Controller) (w : WriteEnv) (comp : Composition)
    (prev : Option Resource) (r : Resource) (p : Json) (hp : r.patch = some p) :
    reconcileResource c w comp prev r none = ⟨false, false, []⟩ ∧
    (∀ current : Option Obj, ∀ a ∈ (reconcileResource c w comp prev r current).actions,
      ∀ js, a ≠ Action.create js) := by
  have h1 : reconcileResource c w comp prev r none = ⟨false, false, []⟩ := by
    unfold reconcileResource
    cases hd : r.deleted with
    | true => simp
    | false => simp [hp]
  refine ⟨h1, ?_⟩
  intro current a ha js
  cases current with
  | none =>
    rw [h1] at ha
    simp at ha
  | some cur =>
    have hshape : (reconcileResource c w comp prev r (some cur)).actions = [] ∨
        (reconcileResource c w comp prev r (some cur)).actions = [Action.delete] ∨
        (reconcileResource c w comp prev r (some cur)).actions =
          [Action.patch PatchKind.json p] := by
      unfold reconcileResource buildPatch
      rw [hp]
      cases hd : r.deleted with
      | true =>
        cases hts : cur.deletionTimestamp.isSome with
        | true => simp [hts]
        | false =>
          by_cases horph : comp.annotations.lookup "eno.azure.io/deletion-strategy" = some "orphan"
          · simp [hts, horph]
          · cases hdr : w.deleteResult with
            | none => simp [hts, horph, hdr]
            | some e => cases e <;> simp [hts, horph, hdr]
      | false =>
        cases hdu : r.disableUpdates with
        | true => simp [hdu]
        | false =>
          cases hnp : r.needsToBePatched with
          | false => simp [hdu, hnp]
          | true =>
            cases hpr : w.patchResult with
            | none => simp [hdu, hnp, hpr]
            | some e => simp [hdu, hnp, hpr]
    rcases hshape with h | h | h <;> rw [h] at ha <;> simp at ha <;> simp [ha]

/-- C6 witness: a JSON-patch-form resource with no current object: the
reconciler performs no write. -/
theorem c6_json_patch_never_created_witness :
    reconcileResource ⟨3, fun _ _ _ => Except.ok (Json.obj []),
        fun _ _ _ => Except.ok (Json.obj [])⟩
      ⟨none, none, none, Except.ok true⟩ ⟨some ⟨"u", none, false⟩, none, []⟩ none
      ⟨⟨"", "v1", "ConfigMap"⟩, 0, false, some (Json.arr []), true, false, none,
        Except.ok (Json.obj []), Except.ok (Json.obj []), ""⟩
      none = ⟨false, false, []⟩ :=
  (c6_json_patch_never_created ⟨3, fun _ _ _ => Except.ok (Json.obj []),
      fun _ _ _ => Except.ok (Json.obj [])⟩
    ⟨none, none, none, Except.ok true⟩ ⟨some ⟨"u", none, false⟩, none, []⟩ none
    ⟨⟨"", "v1", "ConfigMap"⟩, 0, false, some (Json.arr []), true, false, none,
      Except.ok (Json.obj []), Except.ok (Json.obj []), ""⟩
    (Json.arr []) rfl).1

/-- C4: for a resource whose desired form is not an explicit JSON patch,
buildPatch computes a three-way merge of previous desired state (an absent
previous state standing for the empty object), next desired state, and
current downstream state; the strategic-merge primitive is chosen exactly
when an OpenAPI model is available and the GVK is not policy/v1
PodDisruptionBudget, the plain JSON merge primitive otherwise. -/
theorem c4_patch_strategy (c : Controller) (disc : Except Unit Bool)
    (prev : Option Resource) (next : Resource) (cur : Obj)
    (prevJS nextJS : Json) (hasModel : Bool)
    (hnp : next.patch = none) (hprev : finalize prev = Except.ok prevJS)
    (hnext : next.finalized = Except.ok nextJS) (hdisc : disc = Except.ok hasModel) :
    finalize none = Except.ok (Json.obj []) ∧
    (hasModel = true → next.gvk ≠ pdbGVK →
      buildPatch c disc prev next cur =
        (match c.mergeStrategic prevJS nextJS cur.json with
         | Except.ok p => Except.ok (some p, PatchKind.strategic)
         | Except.error e => Except.error e)) ∧
    (hasModel = false ∨ next.gvk = pdbGVK →
      buildPatch c disc prev next cur =
        (match c.mergeJSON prevJS nextJS cur.json with
         | Except.ok p => Except.ok (some p, PatchKind.merge)
         | Except.error e => Except.error e)) := by
  refine ⟨rfl, ?_, ?_⟩
  · intro hm hgvk
    unfold buildPatch
    rw [hnp, hprev, hnext, hdisc, hm]
    simp [hgvk]
    cases hms : c.mergeStrategic prevJS nextJS cur.json with
    | ok p => simp [hms]
    | error e => simp [hms]
  · intro hcase
    have hcond : (!hasModel || decide (next.gvk = pdbGVK)) = true := by
      rcases hcase with hm | hgvk
      · simp [hm]
      · simp [hgvk]
    unfold buildPatch
    rw [hnp, hprev, hnext, hdisc]
    cases hmj : c.mergeJSON prevJS nextJS cur.json with
    | ok p => simp [hcond, hmj]
    | error e => simp [hcond, hmj]

/-- C4 witness: with an OpenAPI model available and a non-PDB kind, the
strategic three-way merge of (empty previous, next, current) is returned as
a strategic-merge patch. -/
theorem c4_patch_strategy_witness :
    buildPatch ⟨3, fun _ _ _ => Except.ok (Json.obj []), fun _ _ _ => Except.ok Json.null⟩
      (Except.ok true) none
      ⟨⟨"", "v1", "ConfigMap"⟩, 0, false, none, false, false, none,
        Except.ok (Json.obj []), Except.ok (Json.obj [("a", Json.num 1)]), ""⟩
      ⟨"3", none, Json.obj []⟩ =
      Except.ok (some Json.null, PatchKind.strategic) := by
  have h := (c4_patch_strategy
    ⟨3, fun _ _ _ => Except.ok (Json.obj []), fun _ _ _ => Except.ok Json.null⟩
    (Except.ok true) none
    ⟨⟨"", "v1", "ConfigMap"⟩, 0, false, none, false, false, none,
      Except.ok (Json.obj []), Except.ok (Json.obj [("a", Json.num 1)]), ""⟩
    ⟨"3", none, Json.obj []⟩ (Json.obj []) (Json.obj [("a", Json.num 1)]) true
    rfl rfl rfl rfl).2.1 rfl (by decide)
  rw [h]

/-! ## Field-list lemmas for mungePatch -/

/-- Removing a key removes it. -/
theorem getField_removeField_self (l : List (String × Json)) (k : String) :
    getField (removeField l k) k = none := by
  induction l with
  | nil => rfl
  | cons kv rest ih =>
    obtain ⟨k0, v⟩ := kv
    by_cases h : k0 = k
    · simp [removeField, h, ih]
    · simp [removeField, getField, h, ih]

/-- Removing a key leaves other keys alone. -/
theorem getField_removeField_ne (l : List (String × Json)) (k k2 : String) (h : k2 ≠ k) :
    getField (removeField l k) k2 = getField l k2 := by
  induction l with
  | nil => rfl
  | cons kv rest ih =>
    obtain ⟨k0, v⟩ := kv
    by_cases h0 : k0 = k
    · subst h0
      simp [removeField, getField, Ne.symm h, ih]
    · by_cases h2 : k0 = k2
      · simp [removeField, getField, h0, h2, h]
      · simp [removeField, getField, h0, h2, ih]

/-- Setting a key makes it hold the given value. -/
theorem getField_setField_self (l : List (String × Json)) (k : String) (v : Json) :
    getField (setField l k v) k = some v := by
  induction l with
  | nil => simp [setField, getField]
  | cons kv rest ih =>
    obtain ⟨k0, w⟩ := kv
    by_cases h : k0 = k
    · simp [setField, getField, h]
    · simp [setField, getField, h, ih]

/-- Setting a key leaves other keys alone. -/
theorem getField_setField_ne (l : List (String × Json)) (k k2 : String) (v : Json)
    (h : k2 ≠ k) : getField (setField l k v) k2 = getField l k2 := by
  induction l with
  | nil => simp [setField, getField, Ne.symm h]
  | cons kv rest ih =>
    obtain ⟨k0, w⟩ := kv
    by_cases h0 : k0 = k
    · subst h0
      simp [setField, getField, Ne.symm h]
    · by_cases h2 : k0 = k2
      · simp [setField, getField, h0, h2, h]
      · simp [setField, getField, h0, h2, ih]

/-- Setting a nested key leaves other top-level keys alone. -/
theorem getField_setNested_ne (l : List (String × Json)) (parent child k2 : String)
    (v : Json) (h : k2 ≠ parent) :
    getField (setNested l parent child v) k2 = getField l k2 := by
  unfold setNested
  cases hm : getField l parent with
  | none => exact getField_setField_ne _ _ _ _ h
  | some j =>
    cases j with
    | obj inner => exact getField_setField_ne _ _ _ _ h
    | null => rfl
    | str s => rfl
    | num n => rfl
    | bool b => rfl
    | arr a => rfl

/-- Removing a nested key leaves other top-level keys alone. -/
theorem getField_removeNested_ne (l : List (String × Json)) (parent child k2 : String)
    (h : k2 ≠ parent) :
    getField (removeNested l parent child) k2 = getField l k2 := by
  unfold removeNested
  cases hm : getField l parent with
  | none => rfl
  | some j =>
    cases j with
    | obj inner => exact getField_setField_ne _ _ _ _ h
    | null => rfl
    | str s => rfl
    | num n => rfl
    | bool b => rfl
    | arr a => rfl

/-- The munged patch never carries a top-level status field. -/
theorem mungeFields_status (fields : List (String × Json)) (rv : String) :
    getField (mungeFields fields rv) "status" = none := by
  unfold mungeFields
  rw [getField_removeNested_ne _ _ _ _ (by decide)]
  by_cases hrv : rv = ""
  · rw [if_pos hrv, getField_removeNested_ne _ _ _ _ (by decide)]
    exact getField_removeField_self _ _
  · rw [if_neg hrv, getField_setNested_ne _ _ _ _ _ (by decide)]
    exact getField_removeField_self _ _

/-- With a non-empty resource version and a well-formed (absent or object)
metadata field, the munged patch carries the resource version under
metadata and no creationTimestamp. -/
theorem mungeFields_metadata (fields : List (String × Json)) (rv : String)
    (hrv : rv ≠ "")
    (hmeta : getField fields "metadata" = none ∨
      ∃ mf0, getField fields "metadata" = some (Json.obj mf0)) :
    ∃ mf, getField (mungeFields fields rv) "metadata" = some (Json.obj mf) ∧
      getField mf "resourceVersion" = some (Json.str rv) ∧
      getField mf "creationTimestamp" = none := by
  have hrw : mungeFields fields rv =
      removeNested (setNested (removeField fields "status") "metadata" "resourceVersion"
        (Json.str rv)) "metadata" "creationTimestamp" := by
    simp [mungeFields, hrv]
  rw [hrw]
  have hf1 : getField (removeField fields "status") "metadata" = getField fields "metadata" :=
    getField_removeField_ne _ _ _ (by decide)
  rcases hmeta with hnone | ⟨mf0, hobj⟩
  · have h2 : getField (removeField fields "status") "metadata" = none := by
      rw [hf1, hnone]
    have hset : setNested (removeField fields "status") "metadata" "resourceVersion"
        (Json.str rv) = setField (removeField fields "status") "metadata"
          (Json.obj [("resourceVersion", Json.str rv)]) := by
      unfold setNested
      rw [h2]
    rw [hset]
    have h3 : getField (setField (removeField fields "status") "metadata"
        (Json.obj [("resourceVersion", Json.str rv)])) "metadata" =
        some (Json.obj [("resourceVersion", Json.str rv)]) := getField_setField_self _ _ _
    have hrem : removeNested (setField (removeField fields "status") "metadata"
        (Json.obj [("resourceVersion", Json.str rv)])) "metadata" "creationTimestamp" =
        setField (setField (removeField fields "status") "metadata"
          (Json.obj [("resourceVersion", Json.str rv)])) "metadata"
          (Json.obj (removeField [("resourceVersion", Json.str rv)] "creationTimestamp")) := by
      unfold removeNested
      rw [h3]
    rw [hrem]
    refine ⟨removeField [("resourceVersion", Json.str rv)] "creationTimestamp",
      getField_setField_self _ _ _, ?_, getField_removeField_self _ _⟩
    rw [getField_removeField_ne _ _ _ (by decide)]
    simp [getField]
  · have h2 : getField (removeField fields "status") "metadata" = some (Json.obj mf0) := by
      rw [hf1, hobj]
    have hset : setNested (removeField fields "status") "metadata" "resourceVersion"
        (Json.str rv) = setField (removeField fields "status") "metadata"
          (Json.obj (setField mf0 "resourceVersion" (Json.str rv))) := by
      unfold setNested
      rw [h2]
    rw [hset]
    have h3 : getField (setField (removeField fields "status") "metadata"
        (Json.obj (setField mf0 "resourceVersion" (Json.str rv)))) "metadata" =
        some (Json.obj (setField mf0 "resourceVersion" (Json.str rv))) :=
      getField_setField_self _ _ _
    have hrem : removeNested (setField (removeField fields "status") "metadata"
        (Json.obj (setField mf0 "resourceVersion" (Json.str rv)))) "metadata"
          "creationTimestamp" =
        setField (setField (removeField fields "status") "metadata"
          (Json.obj (setField mf0 "resourceVersion" (Json.str rv)))) "metadata"
          (Json.obj (removeField (setField mf0 "resourceVersion" (Json.str rv))
            "creationTimestamp")) := by
      unfold removeNested
      rw [h3]
    rw [hrem]
    refine ⟨removeField (setField mf0 "resourceVersion" (Json.str rv)) "creationTimestamp",
      getField_setField_self _ _ _, ?_, getField_removeField_self _ _⟩
    rw [getField_removeField_ne _ _ _ (by decide)]
    exact getField_setField_self _ _ _

/-- C5: mungePatch on a computed non-JSON-patch body injects the observed
resource version under metadata and strips the status field and the
creationTimestamp; a munged patch holding nothing but the injected resource
version is treated as empty; and a reconcile whose patch computation is
munged to empty performs no downstream write at all. -/
theorem c5_munge_patch (fields : List (String × Json)) (rv : String)
    (c : Controller) (w : WriteEnv) (comp : Composition) (prev : Option Resource)
    (r : Resource) (cur : Obj) (body : Json) (ty : PatchKind)
    (hrv : rv ≠ "")
    (hmeta : getField fields "metadata" = none ∨
      ∃ mf0, getField fields "metadata" = some (Json.obj mf0)) :
    getField (mungeFields fields rv) "status" = none ∧
    (∃ mf, getField (mungeFields fields rv) "metadata" = some (Json.obj mf) ∧
      getField mf "resourceVersion" = some (Json.str rv) ∧
      getField mf "creationTimestamp" = none) ∧
    (mungeFields fields rv = [("metadata", Json.obj [("resourceVersion", Json.str rv)])] →
      mungePatch (Json.obj fields) rv = Except.ok none) ∧
    (r.deleted = false → r.patch = none → r.disableUpdates = false →
      buildPatch c w.discovery prev r cur = Except.ok (some body, ty) →
      ty ≠ PatchKind.json →
      mungePatch body cur.resourceVersion = Except.ok none →
      reconcileResource c w comp prev r (some cur) = ⟨false, false, []⟩) := by
  refine ⟨mungeFields_status fields rv, mungeFields_metadata fields rv hrv hmeta, ?_, ?_⟩
  · intro honly
    have hdef : mungePatch (Json.obj fields) rv =
        (if (mungeFields fields rv).length ≤ 1 then Except.ok none
         else Except.ok (some (Json.obj (mungeFields fields rv)))) := rfl
    rw [hdef, honly]
    simp
  · intro hd hpt hdu hbp hty hmg
    unfold reconcileResource
    rw [hd, hpt]
    simp [hdu, hbp, hty, hmg]

/-- C5 witness: a patch body with a status field and a spec field, munged
with resource version "7": the status field is gone afterwards. -/
theorem c5_munge_patch_witness :
    getField (mungeFields [("status", Json.str "s"), ("spec", Json.num 2)] "7") "status" =
      none :=
  (c5_munge_patch [("status", Json.str "s"), ("spec", Json.num 2)] "7"
    ⟨3, fun _ _ _ => Except.ok (Json.obj []), fun _ _ _ => Except.ok (Json.obj [])⟩
    ⟨none, none, none, Except.ok true⟩ ⟨some ⟨"u", none, false⟩, none, []⟩ none
    ⟨⟨"", "v1", "ConfigMap"⟩, 0, false, none, false, false, none,
      Except.ok (Json.obj []), Except.ok (Json.obj []), ""⟩
    ⟨"7", none, Json.obj []⟩ (Json.obj []) PatchKind.merge
    (by decide) (Or.inl rfl)).1

/-! ## Branch lemmas for Controller.Reconcile -/

/-- A recorded dependency state that fails the readiness-group gate: no
recorded status, or a status with no Ready timestamp. -/
def depNotReady : Except Unit (Option ResourceState) → Bool
  | Except.ok none => true
  | Except.ok (some st) => st.ready.isNone
  | Except.error _ => false

/-- The dependency loop never reports success when some dependency is not
ready. -/
theorem checkDeps_ne_passed :
    ∀ deps : List (Except Unit (Option ResourceState)),
      (∃ d ∈ deps, depNotReady d = true) → checkDeps deps ≠ DepCheck.passed := by
  intro deps
  induction deps with
  | nil =>
    rintro ⟨d, hd, _⟩
    simp at hd
  | cons d rest ih =>
    rintro ⟨d2, hd2, hnr⟩ hpass
    cases d with
    | error e => simp [checkDeps] at hpass
    | ok st =>
      cases st with
      | none => simp [checkDeps] at hpass
      | some s =>
        by_cases hrd : s.ready.isNone
        · simp [checkDeps, hrd] at hpass
        · rcases List.mem_cons.mp hd2 with rfl | hmem
          · exact hrd (by simpa [depNotReady] using hnr)
          · exact ih ⟨d2, hmem, hnr⟩ (by simpa [checkDeps, hrd] using hpass)

/-- A synthesis resource in a strictly lower group is enumerated by the
descending range query. -/
theorem mem_rangeByReadinessGroup {g : Int} {rs : SynResources}
    {pr : Int × Except Unit (Option ResourceState)} (hm : pr ∈ rs) (hlt : pr.1 < g) :
    pr.2 ∈ rangeByReadinessGroup g rs := by
  unfold rangeByReadinessGroup
  exact List.mem_map_of_mem _ (List.mem_filter.mpr ⟨hm, by simpa using hlt⟩)

/-- Every outcome produced by the CRD gate performs no write, no status
write, no modification, and leaves the cached version untouched. -/
theorem crdGate_props (env : Env) (ls : String) (o : Outcome)
    (h : crdGate env ls = some o) :
    o.finalLastSeen = ls ∧ o.actions = [] ∧ o.statusWrite = none ∧ o.modified = false := by
  unfold crdGate at h
  cases hcrd : env.definingCRD with
  | none => rw [hcrd] at h; exact Option.noConfusion h
  | some e =>
    rw [hcrd] at h
    cases e with
    | error u =>
      dsimp only at h
      obtain rfl := Option.some.inj h
      exact ⟨rfl, rfl, rfl, rfl⟩
    | ok st0 =>
      cases st0 with
      | none =>
        dsimp only at h
        obtain rfl := Option.some.inj h
        exact ⟨rfl, rfl, rfl, rfl⟩
      | some st =>
        dsimp only at h
        cases hrt : st.ready with
        | none =>
          rw [hrt] at h
          obtain rfl := Option.some.inj h
          exact ⟨rfl, rfl, rfl, rfl⟩
        | some t =>
          rw [hrt] at h
          dsimp only at h
          by_cases hdel : 0 < oneSecond - (env.now - t)
          · rw [if_pos hdel] at h
            obtain rfl := Option.some.inj h
            exact ⟨rfl, rfl, rfl, rfl⟩
          · rw [if_neg hdel] at h
            exact Option.noConfusion h

/-- Every outcome of the reconcile tail leaves the cached version at its
old value or cleared, unless the tick ended with no error and no
modification. -/
theorem finish_shape (c : Controller) (env : Env) (comp : Composition) (r : Resource)
    (gc : GCOut) (ready : Option Nat) :
    (finishReconcile c env comp r gc ready).finalLastSeen = r.lastSeen ∨
    (finishReconcile c env comp r gc ready).finalLastSeen = "" ∨
    ((finishReconcile c env comp r gc ready).err = false ∧
      (finishReconcile c env comp r gc ready).modified = false) := by
  cases hch : gc.hasChanged with
  | false =>
    right; right
    cases hrd : ready with
    | none => simp [finishReconcile, hch, hrd]
    | some t =>
      cases hri : r.reconcileInterval with
      | none => simp [finishReconcile, hch, hrd, hri]
      | some iv => cases hdel : r.deleted <;> simp [finishReconcile, hch, hrd, hri, hdel]
  | true =>
    cases hre : (reconcileResource c env.write comp (prevResource comp env) r gc.current).err with
    | true =>
      right; left
      simp [finishReconcile, hch, hre]
    | false =>
      cases hmo : (reconcileResource c env.write comp (prevResource comp env) r
          gc.current).modified with
      | true =>
        right; left
        simp [finishReconcile, hch, hre, hmo]
      | false =>
        right; right
        cases hrd : ready with
        | none => simp [finishReconcile, hch, hre, hmo, hrd]
        | some t =>
          cases hri : r.reconcileInterval with
          | none => simp [finishReconcile, hch, hre, hmo, hrd, hri]
          | some iv =>
            cases hdel : r.deleted <;> simp [finishReconcile, hch, hre, hmo, hrd, hri, hdel]

/-- The `finish_shape` disjunction lifted to the resolved reconcile body. -/
theorem resolved_shape (c : Controller) (env : Env) (comp : Composition) (r : Resource) :
    (reconcileResolved c env comp r).finalLastSeen = r.lastSeen ∨
    (reconcileResolved c env comp r).finalLastSeen = "" ∨
    ((reconcileResolved c env comp r).err = false ∧
      (reconcileResolved c env comp r).modified = false) := by
  unfold reconcileResolved
  cases hcg : crdGate env r.lastSeen with
  | some o =>
    left
    simp [(crdGate_props env r.lastSeen o hcg).1]
  | none =>
    cases hgf : gcFatal (getCurrent r env.metaRead env.fullRead).err with
    | true => left; simp [hgf]
    | false =>
      cases hsl : env.sliceGet with
      | error e => left; simp [hgf, hsl]
      | ok st =>
        cases hga : gateActive st r with
        | false =>
          simpa [hgf, hsl, hga] using finish_shape c env comp r
            (getCurrent r env.metaRead env.fullRead) (readyOf st env.readinessEval)
        | true =>
          cases hck : checkDeps (rangeByReadinessGroup r.readinessGroup
              env.synthesisResources) with
          | errored => left; simp [hgf, hsl, hga, hck]
          | halted => left; simp [hgf, hsl, hga, hck]
          | passed =>
            simpa [hgf, hsl, hga, hck] using finish_shape c env comp r
              (getCurrent r env.metaRead env.fullRead) (readyOf st env.readinessEval)

/-- The `finish_shape` disjunction lifted to the whole reconcile. -/
theorem reconcile_lastSeen_shape (c : Controller) (env : Env) (r : Resource)
    (hr : env.cacheHit = some r) :
    (Reconcile c env).finalLastSeen = r.lastSeen ∨
    (Reconcile c env).finalLastSeen = "" ∨
    ((Reconcile c env).err = false ∧ (Reconcile c env).modified = false) := by
  unfold Reconcile
  cases hc : env.compGet with
  | error e => cases e <;> left <;> simp [hr]
  | ok comp =>
    cases hcs : comp.currentSynthesis with
    | none => left; simp [hr, hcs]
    | some syn =>
      cases hf : syn.failed with
      | true => left; simp [hcs, hf, hr]
      | false =>
        simpa [hcs, hf, hr] using resolved_shape c env comp r

/-- Under the load and resolution hypotheses, the reconcile equals its
resolved body. -/
theorem reconcile_eq_resolved (c : Controller) (env : Env) (comp : Composition)
    (syn : Synthesis) (r : Resource)
    (hc : env.compGet = Except.ok comp) (hcs : comp.currentSynthesis = some syn)
    (hf : syn.failed = false) (hr : env.cacheHit = some r) :
    Reconcile c env = reconcileResolved c env comp r := by
  unfold Reconcile
  rw [hc]
  simp [hcs, hf, hr]

/-- When every gate passes, the resolved body equals the reconcile tail. -/
theorem resolved_eq_finish (c : Controller) (env : Env) (comp : Composition)
    (r : Resource) (st : Option ResourceState)
    (hcrd : env.definingCRD = none)
    (hgf : gcFatal (getCurrent r env.metaRead env.fullRead).err = false)
    (hsl : env.sliceGet = Except.ok st)
    (hgate : gateActive st r = false ∨
      checkDeps (rangeByReadinessGroup r.readinessGroup env.synthesisResources) =
        DepCheck.passed) :
    reconcileResolved c env comp r =
      finishReconcile c env comp r (getCurrent r env.metaRead env.fullRead)
        (readyOf st env.readinessEval) := by
  have hcg : crdGate env r.lastSeen = none := by
    unfold crdGate
    rw [hcrd]
  unfold reconcileResolved
  rw [hcg]
  rcases hgate with h | h
  · simp [hgf, hsl, h]
  · cases hga : gateActive st r with
    | false => simp [hgf, hsl, hga]
    | true => simp [hgf, hsl, hga, h]

/-- wait.Jitter bounds: the jittered delay lies between the base duration
and the base duration plus ten percent. -/
theorem jitter_bounds (d rnd : Nat) : d ≤ jitter d rnd ∧ jitter d rnd ≤ d + d / 10 := by
  unfold jitter
  have h : rnd % (d / 10 + 1) < d / 10 + 1 := Nat.mod_lt _ (by omega)
  omega

/-- C2: while a resource's recorded slice status is not yet Reconciled and
the resource is not marked Deleted, a tick in which some resource of the
same synthesis in a strictly lower readiness group lacks a Ready timestamp
stops before reconciling: no downstream write (in particular no create and
no update), no status write, and no modification, whatever else the
environment contains. -/
theorem c2_readiness_group_gate (c : Controller) (env : Env) (r : Resource)
    (hr : env.cacheHit = some r) (hdel : r.deleted = false)
    (hst : ∀ st, env.sliceGet = Except.ok (some st) → st.reconciled = false)
    (hdep : ∃ pr ∈ env.synthesisResources,
      pr.1 < r.readinessGroup ∧ depNotReady pr.2 = true) :
    (Reconcile c env).actions = [] ∧ (Reconcile c env).statusWrite = none ∧
    (Reconcile c env).modified = false := by
  have key : ∀ comp : Composition,
      (reconcileResolved c env comp r).actions = [] ∧
      (reconcileResolved c env comp r).statusWrite = none ∧
      (reconcileResolved c env comp r).modified = false := by
    intro comp
    unfold reconcileResolved
    cases hcg : crdGate env r.lastSeen with
    | some o =>
      obtain ⟨_, ha, hsw, hmo⟩ := crdGate_props env r.lastSeen o hcg
      simp [ha, hsw, hmo]
    | none =>
      cases hgf : gcFatal (getCurrent r env.metaRead env.fullRead).err with
      | true => simp [hgf]
      | false =>
        cases hsl : env.sliceGet with
        | error e => simp [hgf, hsl]
        | ok st =>
          have hga : gateActive st r = true := by
            cases st with
            | none => simp [gateActive, hdel]
            | some s => simp [gateActive, hdel, hst s hsl]
          have hck : checkDeps (rangeByReadinessGroup r.readinessGroup
              env.synthesisResources) ≠ DepCheck.passed := by
            obtain ⟨pr, hm, hlt, hnr⟩ := hdep
            exact checkDeps_ne_passed _ ⟨pr.2, mem_rangeByReadinessGroup hm hlt, hnr⟩
          cases hckv : checkDeps (rangeByReadinessGroup r.readinessGroup
              env.synthesisResources) with
          | errored => simp [hgf, hsl, hga, hckv]
          | halted => simp [hgf, hsl, hga, hckv]
          | passed => exact absurd hckv hck
  unfold Reconcile
  cases hc : env.compGet with
  | error e => cases e <;> simp
  | ok comp =>
    cases hcs : comp.currentSynthesis with
    | none => simp [hcs]
    | some syn =>
      cases hf : syn.failed with
      | true => simp [hcs, hf]
      | false => simpa [hcs, hf, hr] using key comp

/-- C2 witness: a readiness-group-2 resource that is not yet reconciled,
with a group-0 resource lacking a recorded status: the tick writes
nothing. -/
theorem c2_readiness_group_gate_witness :
    (Reconcile ⟨3, fun _ _ _ => Except.ok (Json.obj []), fun _ _ _ => Except.ok (Json.obj [])⟩
      ⟨Except.ok ⟨some ⟨"u", none, false⟩, none, []⟩,
        some ⟨⟨"", "v1", "ConfigMap"⟩, 2, false, none, false, false, none,
          Except.ok (Json.obj []), Except.ok (Json.obj []), "x"⟩,
        none, none, 0, Except.ok "x", Except.ok ⟨"4", none, Json.obj []⟩,
        Except.ok none, none, [((0 : Int), Except.ok none)],
        ⟨none, none, none, Except.ok true⟩, 0, 0⟩).actions = [] ∧
    (Reconcile ⟨3, fun _ _ _ => Except.ok (Json.obj []), fun _ _ _ => Except.ok (Json.obj [])⟩
      ⟨Except.ok ⟨some ⟨"u", none, false⟩, none, []⟩,
        some ⟨⟨"", "v1", "ConfigMap"⟩, 2, false, none, false, false, none,
          Except.ok (Json.obj []), Except.ok (Json.obj []), "x"⟩,
        none, none, 0, Except.ok "x", Except.ok ⟨"4", none, Json.obj []⟩,
        Except.ok none, none, [((0 : Int), Except.ok none)],
        ⟨none, none, none, Except.ok true⟩, 0, 0⟩).statusWrite = none := by
  have h := c2_readiness_group_gate
    ⟨3, fun _ _ _ => Except.ok (Json.obj []), fun _ _ _ => Except.ok (Json.obj [])⟩
    ⟨Except.ok ⟨some ⟨"u", none, false⟩, none, []⟩,
      some ⟨⟨"", "v1", "ConfigMap"⟩, 2, false, none, false, false, none,
        Except.ok (Json.obj []), Except.ok (Json.obj []), "x"⟩,
      none, none, 0, Except.ok "x", Except.ok ⟨"4", none, Json.obj []⟩,
      Except.ok none, none, [((0 : Int), Except.ok none)],
      ⟨none, none, none, Except.ok true⟩, 0, 0⟩
    ⟨⟨"", "v1", "ConfigMap"⟩, 2, false, none, false, false, none,
      Except.ok (Json.obj []), Except.ok (Json.obj []), "x"⟩
    rfl rfl (by intro st h; simp at h)
    ⟨((0 : Int), Except.ok none), by simp, by decide, rfl⟩
  exact ⟨h.1, h.2.1⟩

/-- C8 counterexample: the claim says a completed reconcile of a ready
resource with a configured ReconcileInterval schedules a requeue after that
interval. A resource marked Deleted (already gone downstream), whose slice
records Ready at time 5 and whose ReconcileInterval is 100, completes its
tick (the status write is handed (deleted, ready at 5)) yet schedules no
requeue at all. -/
theorem c8_deleted_interval_counterexample :
    ((⟨⟨"", "v1", "ConfigMap"⟩, 0, true, none, false, false, some 100,
        Except.ok (Json.obj []), Except.ok (Json.obj []), ""⟩ : Resource).reconcileInterval =
      some 100) ∧
    (Reconcile ⟨10, fun _ _ _ => Except.ok (Json.obj []), fun _ _ _ => Except.ok (Json.obj [])⟩
      ⟨Except.ok ⟨some ⟨"u", none, false⟩, none, []⟩,
        some ⟨⟨"", "v1", "ConfigMap"⟩, 0, true, none, false, false, some 100,
          Except.ok (Json.obj []), Except.ok (Json.obj []), ""⟩,
        none, none, 0, Except.ok "", Except.error ApiErr.notFound,
        Except.ok (some ⟨true, some 5, true⟩), none, [],
        ⟨none, none, none, Except.ok true⟩, 0, 0⟩).statusWrite = some (true, some 5) ∧
    (Reconcile ⟨10, fun _ _ _ => Except.ok (Json.obj []), fun _ _ _ => Except.ok (Json.obj [])⟩
      ⟨Except.ok ⟨some ⟨"u", none, false⟩, none, []⟩,
        some ⟨⟨"", "v1", "ConfigMap"⟩, 0, true, none, false, false, some 100,
          Except.ok (Json.obj []), Except.ok (Json.obj []), ""⟩,
        none, none, 0, Except.ok "", Except.error ApiErr.notFound,
        Except.ok (some ⟨true, some 5, true⟩), none, [],
        ⟨none, none, none, Except.ok true⟩, 0, 0⟩).result = ⟨false, none⟩ :=
  ⟨rfl, rfl, rfl⟩

/-- C8 (amended): for a tick that reaches its end, if the resource is not
ready a requeue is scheduled after ReadinessPollInterval plus a jitter of
at most ten percent; else if the resource is not marked Deleted and has a
ReconcileInterval, a requeue is scheduled after that interval plus at most
ten percent jitter; otherwise (ready and either Deleted or without an
interval) no requeue is scheduled. -/
theorem c8_requeue_amended (c : Controller) (env : Env) (comp : Composition)
    (syn : Synthesis) (r : Resource) (st : ResourceState) (obj : Obj) (dt : Nat)
    (hc : env.compGet = Except.ok comp) (hcs : comp.currentSynthesis = some syn)
    (hf : syn.failed = false) (hr : env.cacheHit = some r)
    (hcrd : env.definingCRD = none) (hsl : env.sliceGet = Except.ok (some st))
    (hrec : st.reconciled = true) (hlast : r.lastSeen = "")
    (hfull : env.fullRead = Except.ok obj) (hts : obj.deletionTimestamp = some dt)
    (hdu : r.disableUpdates = true) :
    (Reconcile c env).statusWrite = some (true, readyOf (some st) env.readinessEval) ∧
    (readyOf (some st) env.readinessEval = none →
      (Reconcile c env).result =
        ⟨false, some (jitter c.readinessPollInterval env.randReadiness)⟩ ∧
      c.readinessPollInterval ≤ jitter c.readinessPollInterval env.randReadiness ∧
      jitter c.readinessPollInterval env.randReadiness ≤
        c.readinessPollInterval + c.readinessPollInterval / 10) ∧
    (∀ t iv, readyOf (some st) env.readinessEval = some t → r.deleted = false →
      r.reconcileInterval = some iv →
      (Reconcile c env).result = ⟨false, some (jitter iv env.randInterval)⟩ ∧
      iv ≤ jitter iv env.randInterval ∧ jitter iv env.randInterval ≤ iv + iv / 10) ∧
    (∀ t, readyOf (some st) env.readinessEval = some t →
      (r.deleted = true ∨ r.reconcileInterval = none) →
      (Reconcile c env).result = ⟨false, none⟩) := by
  have hgc : getCurrent r env.metaRead env.fullRead = ⟨some obj, true, none, false, true⟩ := by
    unfold getCurrent
    rw [hlast]
    simp [hfull]
  have hga : gateActive (some st) r = false := by simp [gateActive, hrec]
  have hrr : reconcileResource c env.write comp (prevResource comp env) r (some obj) =
      ⟨false, false, []⟩ := by
    unfold reconcileResource
    cases hdel : r.deleted with
    | true => simp [hts]
    | false => simp [hdu]
  have heq : Reconcile c env =
      finishReconcile c env comp r ⟨some obj, true, none, false, true⟩
        (readyOf (some st) env.readinessEval) := by
    rw [reconcile_eq_resolved c env comp syn r hc hcs hf hr,
      resolved_eq_finish c env comp r (some st) hcrd (by rw [hgc]; rfl) hsl (Or.inl hga), hgc]
  refine ⟨?_, ?_, ?_, ?_⟩
  · rw [heq]
    cases hrd : readyOf (some st) env.readinessEval with
    | none => simp [finishReconcile, hrr, hrd, hts]
    | some t =>
      cases hri : r.reconcileInterval with
      | none => simp [finishReconcile, hrr, hrd, hri, hts]
      | some iv =>
        cases hdel : r.deleted <;> simp [finishReconcile, hrr, hrd, hri, hdel, hts]
  · intro hrd
    refine ⟨?_, (jitter_bounds _ _).1, (jitter_bounds _ _).2⟩
    rw [heq]
    simp [finishReconcile, hrr, hrd]
  · intro t iv hrd hdel hri
    refine ⟨?_, (jitter_bounds _ _).1, (jitter_bounds _ _).2⟩
    rw [heq]
    simp [finishReconcile, hrr, hrd, hdel, hri]
  · intro t hrd hcase
    rw [heq]
    rcases hcase with hdel | hri
    · cases hriv : r.reconcileInterval with
      | none => simp [finishReconcile, hrr, hrd, hdel, hriv]
      | some iv => simp [finishReconcile, hrr, hrd, hdel, hriv]
    · simp [finishReconcile, hrr, hrd, hri]

/-- C8 witness: a ready, non-deleted resource with ReconcileInterval 50 and
a jitter draw of 3 is requeued after jitter 50 3. -/
theorem c8_requeue_amended_witness :
    (Reconcile ⟨10, fun _ _ _ => Except.ok (Json.obj []), fun _ _ _ => Except.ok (Json.obj [])⟩
      ⟨Except.ok ⟨some ⟨"u", none, false⟩, none, []⟩,
        some ⟨⟨"", "v1", "ConfigMap"⟩, 0, false, none, false, true, some 50,
          Except.ok (Json.obj []), Except.ok (Json.obj []), ""⟩,
        none, none, 0, Except.ok "", Except.ok ⟨"4", some 1, Json.obj []⟩,
        Except.ok (some ⟨true, some 2, false⟩), none, [],
        ⟨none, none, none, Except.ok true⟩, 0, 3⟩).result = ⟨false, some (jitter 50 3)⟩ := by
  have h := (c8_requeue_amended
    ⟨10, fun _ _ _ => Except.ok (Json.obj []), fun _ _ _ => Except.ok (Json.obj [])⟩
    ⟨Except.ok ⟨some ⟨"u", none, false⟩, none, []⟩,
      some ⟨⟨"", "v1", "ConfigMap"⟩, 0, false, none, false, true, some 50,
        Except.ok (Json.obj []), Except.ok (Json.obj []), ""⟩,
      none, none, 0, Except.ok "", Except.ok ⟨"4", some 1, Json.obj []⟩,
      Except.ok (some ⟨true, some 2, false⟩), none, [],
      ⟨none, none, none, Except.ok true⟩, 0, 3⟩
    ⟨some ⟨"u", none, false⟩, none, []⟩ ⟨"u", none, false⟩
    ⟨⟨"", "v1", "ConfigMap"⟩, 0, false, none, false, true, some 50,
      Except.ok (Json.obj []), Except.ok (Json.obj []), ""⟩
    ⟨true, some 2, false⟩ ⟨"4", some 1, Json.obj []⟩ 1
    rfl rfl rfl rfl rfl rfl rfl rfl rfl rfl rfl).2.2.1 2 50 rfl rfl rfl
  exact h.1

/-- C9: whenever the current state is observed to have changed, the cached
last-observed resource version is cleared before reconciling, so a failing
reconcile leaves it cleared and the next tick cannot take the hot path (a
cleared cache always forces a full read reported as changed); moreover the
cache is re-populated with a new version only by a tick that ended with no
error and no modification. -/
theorem c9_version_cache_invalidation (c : Controller) (env : Env) (comp : Composition)
    (syn : Synthesis) (r : Resource) (st : Option ResourceState)
    (hc : env.compGet = Except.ok comp) (hcs : comp.currentSynthesis = some syn)
    (hf : syn.failed = false) (hr : env.cacheHit = some r)
    (hcrd : env.definingCRD = none)
    (hgf : gcFatal (getCurrent r env.metaRead env.fullRead).err = false)
    (hsl : env.sliceGet = Except.ok st)
    (hgate : gateActive st r = false ∨
      checkDeps (rangeByReadinessGroup r.readinessGroup env.synthesisResources) =
        DepCheck.passed) :
    (∀ (r2 : Resource) (m : Except ApiErr String) (f : Except ApiErr Obj),
      r2.lastSeen = "" →
      (getCurrent r2 m f).usedHotPath = false ∧ (getCurrent r2 m f).didFullRead = true ∧
      (getCurrent r2 m f).hasChanged = true) ∧
    ((getCurrent r env.metaRead env.fullRead).hasChanged = true →
      (reconcileResource c env.write comp (prevResource comp env) r
        (getCurrent r env.metaRead env.fullRead).current).err = true →
      (Reconcile c env).finalLastSeen = "" ∧ (Reconcile c env).err = true) ∧
    ((Reconcile c env).finalLastSeen ≠ "" → (Reconcile c env).finalLastSeen ≠ r.lastSeen →
      (Reconcile c env).err = false ∧ (Reconcile c env).modified = false) := by
  refine ⟨?_, ?_, ?_⟩
  · intro r2 m f h0
    cases f <;> simp [getCurrent, h0]
  · intro hch herr
    have heq : Reconcile c env =
        finishReconcile c env comp r (getCurrent r env.metaRead env.fullRead)
          (readyOf st env.readinessEval) := by
      rw [reconcile_eq_resolved c env comp syn r hc hcs hf hr,
        resolved_eq_finish c env comp r st hcrd hgf hsl hgate]
    rw [heq]
    constructor <;> simp [finishReconcile, hch, herr]
  · intro h1 h2
    rcases reconcile_lastSeen_shape c env r hr with h | h | h
    · exact absurd h h2
    · exact absurd h h1
    · exact h

/-- C9 witness: a changed current state whose reconcile fails on a
discovery error leaves the cached version cleared and the tick erroring. -/
theorem c9_version_cache_invalidation_witness :
    (Reconcile ⟨3, fun _ _ _ => Except.ok (Json.obj []), fun _ _ _ => Except.ok (Json.obj [])⟩
      ⟨Except.ok ⟨some ⟨"u", none, false⟩, none, []⟩,
        some ⟨⟨"", "v1", "ConfigMap"⟩, 0, false, none, false, false, none,
          Except.ok (Json.obj []), Except.ok (Json.obj []), ""⟩,
        none, none, 0, Except.ok "", Except.ok ⟨"4", none, Json.obj []⟩,
        Except.ok (some ⟨true, some 3, false⟩), none, [],
        ⟨none, none, none, Except.error ()⟩, 0, 0⟩).finalLastSeen = "" ∧
    (Reconcile ⟨3, fun _ _ _ => Except.ok (Json.obj []), fun _ _ _ => Except.ok (Json.obj [])⟩
      ⟨Except.ok ⟨some ⟨"u", none, false⟩, none, []⟩,
        some ⟨⟨"", "v1", "ConfigMap"⟩, 0, false, none, false, false, none,
          Except.ok (Json.obj []), Except.ok (Json.obj []), ""⟩,
        none, none, 0, Except.ok "", Except.ok ⟨"4", none, Json.obj []⟩,
        Except.ok (some ⟨true, some 3, false⟩), none, [],
        ⟨none, none, none, Except.error ()⟩, 0, 0⟩).err = true :=
  (c9_version_cache_invalidation
    ⟨3, fun _ _ _ => Except.ok (Json.obj []), fun _ _ _ => Except.ok (Json.obj [])⟩
    ⟨Except.ok ⟨some ⟨"u", none, false⟩, none, []⟩,
      some ⟨⟨"", "v1", "ConfigMap"⟩, 0, false, none, false, false, none,
        Except.ok (Json.obj []), Except.ok (Json.obj []), ""⟩,
      none, none, 0, Except.ok "", Except.ok ⟨"4", none, Json.obj []⟩,
      Except.ok (some ⟨true, some 3, false⟩), none, [],
      ⟨none, none, none, Except.error ()⟩, 0, 0⟩
    ⟨some ⟨"u", none, false⟩, none, []⟩ ⟨"u", none, false⟩
    ⟨⟨"", "v1", "ConfigMap"⟩, 0, false, none, false, false, none,
      Except.ok (Json.obj []), Except.ok (Json.obj []), ""⟩
    (some ⟨true, some 3, false⟩)
    rfl rfl rfl rfl rfl rfl rfl (Or.inl rfl)).2.1 rfl rfl

end Eno
